import Mathlib

/-!
Shallow embedding of `src/app/seed/route.ts`: a database-seeding HTTP route.

The route creates four tables (`users`, `customers`, `invoices`, `revenue`)
with `CREATE TABLE IF NOT EXISTS`, inserts fixture rows with
`ON CONFLICT (...) DO NOTHING` semantics, and wraps everything in one
transaction (`BEGIN` / `COMMIT`, `ROLLBACK` on error).

Modelling choices:
* The database is a record of four optional tables (`none` = table absent,
  mirroring `CREATE TABLE IF NOT EXISTS`) plus a counter `nextId` used to
  model server-generated UUIDs for invoice rows (fresh ids).
* The bcrypt hash is an opaque primitive: a parameter
  `hash : String → Nat → String` (plaintext, cost factor).
* Fallible SQL statements are modelled with `Except SeedError`.  A
  `FaultSpec` injects external failures (connectivity, type mismatch) at
  any per-row insert; the `users` email `UNIQUE` constraint is a failure
  the embedding itself produces.
* Each executed `INSERT` statement emits an `Event`, so the order of the
  four seeding steps is observable in the trace of a run.
* The fixture lists (`placeholder-data`, not part of the repository
  source) are parameters of the run.
-/

structure UserRecord where
  id : String
  name : String
  email : String
  password : String
deriving DecidableEq, Repr

/-- A row of the `users` table: the stored `password` is the bcrypt hash. -/
structure UserRow where
  id : String
  name : String
  email : String
  password : String
deriving DecidableEq, Repr

structure CustomerRecord where
  id : String
  name : String
  email : String
  image_url : String
deriving DecidableEq, Repr

structure InvoiceRecord where
  customer_id : String
  amount : Int
  status : String
  date : String
deriving DecidableEq, Repr

/-- A row of the `invoices` table: `id` is server-generated
(`uuid_generate_v4()` modelled as a fresh counter value). -/
structure InvoiceRow where
  id : Nat
  customer_id : String
  amount : Int
  status : String
  date : String
deriving DecidableEq, Repr

structure RevenueRecord where
  month : String
  revenue : Int
deriving DecidableEq, Repr

/-- Database state: each table is `none` while it does not exist
(`CREATE TABLE IF NOT EXISTS` turns `none` into `some []` and leaves
`some t` alone); `nextId` feeds server-generated invoice ids. -/
structure DB where
  usersTable : Option (List UserRow)
  customersTable : Option (List CustomerRecord)
  invoicesTable : Option (List InvoiceRow)
  revenueTable : Option (List RevenueRecord)
  nextId : Nat
deriving DecidableEq, Repr

def DB.empty : DB := ⟨none, none, none, none, 0⟩

inductive SeedError where
  | uniqueViolation (constraint : String)
  | injectedFault (table : String)
  | rollbackFailure
  | commitFailure
deriving DecidableEq, Repr

/-- One executed `INSERT` statement (emitted also when the insert is
skipped by `ON CONFLICT DO NOTHING`: the statement still runs). -/
inductive Event where
  | userInsert (id : String)
  | customerInsert (id : String)
  | invoiceInsert (customer_id : String)
  | revenueInsert (month : String)
deriving DecidableEq, Repr

/-- Which of the four seeding steps an event belongs to, in source order:
`seedUsers` (0), `seedCustomers` (1), `seedInvoices` (2), `seedRevenue` (3). -/
def Event.stepIndex : Event → Nat
  | .userInsert _ => 0
  | .customerInsert _ => 1
  | .invoiceInsert _ => 2
  | .revenueInsert _ => 3

/-- External failures injected at per-row inserts (connectivity loss,
type mismatch, ...): `true` means that row's `INSERT` statement fails. -/
structure FaultSpec where
  userFault : UserRecord → Bool
  customerFault : CustomerRecord → Bool
  invoiceFault : InvoiceRecord → Bool
  revenueFault : RevenueRecord → Bool

def FaultSpec.noFaults : FaultSpec :=
  ⟨fun _ => false, fun _ => false, fun _ => false, fun _ => false⟩

/-- The row stored for a `UserRecord`: `bcrypt.hash(user.password, 10)`. -/
def mkUserRow (hash : String → Nat → String) (u : UserRecord) : UserRow :=
  ⟨u.id, u.name, u.email, hash u.password 10⟩

/-- `INSERT INTO users ... ON CONFLICT (id) DO NOTHING`.  The conflict
target is only `id`: a duplicate `email` under a fresh `id` violates the
`email UNIQUE` constraint and raises an error. -/
def insertUser (hash : String → Nat → String) (t : List UserRow)
    (u : UserRecord) : Except SeedError (List UserRow) :=
  if t.any (fun r => r.id == u.id) then .ok t
  else if t.any (fun r => r.email == u.email) then
    .error (.uniqueViolation "users_email_key")
  else .ok (t ++ [mkUserRow hash u])

/-- The per-row inserts of `seedUsers` over the fixture list. -/
def seedUsersRows (hash : String → Nat → String) (fault : UserRecord → Bool) :
    List UserRecord → List UserRow →
    Except SeedError (List UserRow × List Event)
  | [], t => .ok (t, [])
  | u :: us, t =>
    if fault u then .error (.injectedFault "users")
    else
      match insertUser hash t u with
      | .error e => .error e
      | .ok t' =>
        match seedUsersRows hash fault us t' with
        | .error e => .error e
        | .ok (t'', evs) => .ok (t'', .userInsert u.id :: evs)

/-- `seedUsers`: ensure the table exists, then insert every fixture row. -/
def seedUsers (hash : String → Nat → String) (fault : UserRecord → Bool)
    (us : List UserRecord) (tbl : Option (List UserRow)) :
    Except SeedError (List UserRow × List Event) :=
  seedUsersRows hash fault us (tbl.getD [])

/-- `INSERT INTO customers ... ON CONFLICT (id) DO NOTHING` (no other
unique constraint on `customers`). -/
def insertCustomer (t : List CustomerRecord) (c : CustomerRecord) :
    List CustomerRecord :=
  if t.any (fun r => r.id == c.id) then t else t ++ [c]

def seedCustomersRows (fault : CustomerRecord → Bool) :
    List CustomerRecord → List CustomerRecord →
    Except SeedError (List CustomerRecord × List Event)
  | [], t => .ok (t, [])
  | c :: cs, t =>
    if fault c then .error (.injectedFault "customers")
    else
      match seedCustomersRows fault cs (insertCustomer t c) with
      | .error e => .error e
      | .ok (t', evs) => .ok (t', .customerInsert c.id :: evs)

def seedCustomers (fault : CustomerRecord → Bool)
    (cs : List CustomerRecord) (tbl : Option (List CustomerRecord)) :
    Except SeedError (List CustomerRecord × List Event) :=
  seedCustomersRows fault cs (tbl.getD [])

/-- The invoice row actually stored: no `id` is supplied by the fixture,
so the server generates a fresh one (the counter value). -/
def mkInvoiceRow (inv : InvoiceRecord) (nid : Nat) : InvoiceRow :=
  ⟨nid, inv.customer_id, inv.amount, inv.status, inv.date⟩

/-- The invoice rows generated for a fixture list, ids counting up from
`nid` (closed form of a fault-free `seedInvoicesRows` pass). -/
def genInvoiceRows : List InvoiceRecord → Nat → List InvoiceRow
  | [], _ => []
  | inv :: invs, nid => mkInvoiceRow inv nid :: genInvoiceRows invs (nid + 1)

/-- `INSERT INTO invoices (customer_id, amount, status, date) ...
ON CONFLICT (id) DO NOTHING`: the id is freshly generated, so the
conflict clause never fires and the row is always appended. -/
def seedInvoicesRows (fault : InvoiceRecord → Bool) :
    List InvoiceRecord → List InvoiceRow → Nat →
    Except SeedError (List InvoiceRow × Nat × List Event)
  | [], t, nid => .ok (t, nid, [])
  | inv :: invs, t, nid =>
    if fault inv then .error (.injectedFault "invoices")
    else
      match seedInvoicesRows fault invs (t ++ [mkInvoiceRow inv nid]) (nid + 1) with
      | .error e => .error e
      | .ok (t', nid', evs) => .ok (t', nid', .invoiceInsert inv.customer_id :: evs)

def seedInvoices (fault : InvoiceRecord → Bool)
    (invs : List InvoiceRecord) (tbl : Option (List InvoiceRow)) (nid : Nat) :
    Except SeedError (List InvoiceRow × Nat × List Event) :=
  seedInvoicesRows fault invs (tbl.getD []) nid

/-- `INSERT INTO revenue ... ON CONFLICT (month) DO NOTHING`. -/
def insertRevenueRow (t : List RevenueRecord) (r : RevenueRecord) :
    List RevenueRecord :=
  if t.any (fun x => x.month == r.month) then t else t ++ [r]

def seedRevenueRows (fault : RevenueRecord → Bool) :
    List RevenueRecord → List RevenueRecord →
    Except SeedError (List RevenueRecord × List Event)
  | [], t => .ok (t, [])
  | r :: rs, t =>
    if fault r then .error (.injectedFault "revenue")
    else
      match seedRevenueRows fault rs (insertRevenueRow t r) with
      | .error e => .error e
      | .ok (t', evs) => .ok (t', .revenueInsert r.month :: evs)

def seedRevenue (fault : RevenueRecord → Bool)
    (rs : List RevenueRecord) (tbl : Option (List RevenueRecord)) :
    Except SeedError (List RevenueRecord × List Event) :=
  seedRevenueRows fault rs (tbl.getD [])

/-- The fixture datasets imported from `placeholder-data` (external input). -/
structure Fixtures where
  users : List UserRecord
  customers : List CustomerRecord
  invoices : List InvoiceRecord
  revenue : List RevenueRecord

/-- The body of the transaction in `GET`: the four seeding steps in source
order `seedUsers`, `seedCustomers`, `seedInvoices`, `seedRevenue`.  On
success it returns the new database state and the trace of executed
`INSERT` statements; on failure the error of the first failing statement. -/
def runSeed (hash : String → Nat → String) (fx : Fixtures) (fs : FaultSpec)
    (db : DB) : Except SeedError (DB × List Event) :=
  match seedUsers hash fs.userFault fx.users db.usersTable with
  | .error e => .error e
  | .ok (ut, uev) =>
    match seedCustomers fs.customerFault fx.customers db.customersTable with
    | .error e => .error e
    | .ok (ct, cev) =>
      match seedInvoices fs.invoiceFault fx.invoices db.invoicesTable db.nextId with
      | .error e => .error e
      | .ok (it, nid, iev) =>
        match seedRevenue fs.revenueFault fx.revenue db.revenueTable with
        | .error e => .error e
        | .ok (rt, rev) =>
          .ok (⟨some ut, some ct, some it, some rt, nid⟩,
            uev ++ cev ++ iev ++ rev)

/-- The HTTP outcome of `GET`: a returned JSON response (200 or 500), or an
exception that escapes the handler (its returned promise rejects). -/
inductive GETResult where
  | json200 (message : String)
  | json500 (error : SeedError)
  | thrown (error : SeedError)
deriving DecidableEq, Repr

/-- The `GET` handler: `BEGIN`; the four seeding steps; `COMMIT`; return
`{message}` — or on any error `ROLLBACK` and return `{error}` with
status 500.  `commitOk` / `rollbackOk` model whether the `COMMIT` /
`ROLLBACK` statements themselves succeed; a failing `COMMIT` is caught by
the same handler, while a failing `ROLLBACK` inside the catch block
rejects the handler's promise (`thrown`).  The second component is the
database state visible after the call: the committed state on success,
the pre-run state otherwise (the transaction's changes are not
committed). -/
def GET (hash : String → Nat → String) (fx : Fixtures) (fs : FaultSpec)
    (commitOk rollbackOk : Bool) (db : DB) : GETResult × DB :=
  match runSeed hash fx fs db with
  | .ok (db', _) =>
    if commitOk then (.json200 "Database seeded successfully", db')
    else if rollbackOk then (.json500 .commitFailure, db)
    else (.thrown .rollbackFailure, db)
  | .error e =>
    if rollbackOk then (.json500 e, db)
    else (.thrown .rollbackFailure, db)

/-- `bcrypt.compare`-style one-way check against the opaque hash
primitive: the stored value verifies against a plaintext iff it equals
the cost-10 hash of that plaintext. -/
def verifyPassword (hash : String → Nat → String)
    (stored plain : String) : Bool :=
  stored == hash plain 10

/-- A concrete stand-in for the opaque bcrypt primitive, used to evaluate
the model on closed inputs. -/
def hash0 (p : String) (_cost : Nat) : String := "$2b$10$" ++ p

/-! ### Helper lemmas: the users step -/

lemma any_userId_iff (t : List UserRow) (s : String) :
    (t.any (fun r => r.id == s) = true) ↔ s ∈ t.map UserRow.id := by
  simp [List.any_eq_true, List.mem_map]

lemma any_userEmail_iff (t : List UserRow) (s : String) :
    (t.any (fun r => r.email == s) = true) ↔ s ∈ t.map UserRow.email := by
  simp [List.any_eq_true, List.mem_map]

lemma insertUser_skip {hash : String → Nat → String} {t : List UserRow}
    {u : UserRecord} (h : u.id ∈ t.map UserRow.id) :
    insertUser hash t u = .ok t := by
  unfold insertUser
  rw [if_pos ((any_userId_iff t u.id).mpr h)]

lemma insertUser_ok_cases {hash : String → Nat → String} {t : List UserRow}
    {u : UserRecord} {t₁ : List UserRow}
    (h : insertUser hash t u = .ok t₁) :
    (u.id ∈ t.map UserRow.id ∧ t₁ = t) ∨
    (u.id ∉ t.map UserRow.id ∧ t₁ = t ++ [mkUserRow hash u]) := by
  unfold insertUser at h
  by_cases hid : t.any (fun r => r.id == u.id) = true
  · rw [if_pos hid] at h
    exact Or.inl ⟨(any_userId_iff t u.id).mp hid, (Except.ok.injEq _ _).mp h |>.symm⟩
  · rw [if_neg hid] at h
    by_cases hem : t.any (fun r => r.email == u.email) = true
    · rw [if_pos hem] at h; cases h
    · rw [if_neg hem] at h
      refine Or.inr ⟨fun hmem => hid ((any_userId_iff t u.id).mpr hmem), ?_⟩
      exact ((Except.ok.injEq _ _).mp h).symm

/-- Fresh id but duplicate email: the `ON CONFLICT (id)` clause does not
apply, and the `email UNIQUE` constraint raises an error. -/
lemma insertUser_email_conflict {hash : String → Nat → String}
    {t : List UserRow} {u : UserRecord}
    (hid : u.id ∉ t.map UserRow.id) (hem : u.email ∈ t.map UserRow.email) :
    insertUser hash t u = .error (.uniqueViolation "users_email_key") := by
  unfold insertUser
  rw [if_neg (fun hh => hid ((any_userId_iff t u.id).mp hh)),
    if_pos ((any_userEmail_iff t u.email).mpr hem)]

/-- Combined specification of a successful `seedUsersRows` pass: the final
table's ids, preservation of id-uniqueness, provenance of rows, and the
shape of the emitted events. -/
lemma seedUsersRows_ok_spec {hash : String → Nat → String}
    {fault : UserRecord → Bool} {us : List UserRecord}
    {t t' : List UserRow} {evs : List Event}
    (h : seedUsersRows hash fault us t = .ok (t', evs)) :
    (∀ x, x ∈ t'.map UserRow.id ↔
      x ∈ t.map UserRow.id ∨ x ∈ us.map UserRecord.id)
    ∧ ((t.map UserRow.id).Nodup → (t'.map UserRow.id).Nodup)
    ∧ (∀ r ∈ t', r ∈ t ∨ ∃ u ∈ us, r = mkUserRow hash u)
    ∧ (∀ e ∈ evs, ∃ i, e = Event.userInsert i) := by
  induction us generalizing t t' evs with
  | nil =>
    simp only [seedUsersRows, Except.ok.injEq, Prod.mk.injEq] at h
    obtain ⟨h1, h2⟩ := h
    subst h1; subst h2
    simp
  | cons u us ih =>
    simp only [seedUsersRows] at h
    by_cases hf : fault u
    · rw [if_pos hf] at h; cases h
    · rw [if_neg hf] at h
      cases h₁ : insertUser hash t u with
      | error e => rw [h₁] at h; simp at h
      | ok t₁ =>
        rw [h₁] at h
        cases h₂ : seedUsersRows hash fault us t₁ with
        | error e => simp only [h₂] at h; cases h
        | ok p =>
          obtain ⟨t₂, evs₂⟩ := p
          simp only [h₂, Except.ok.injEq, Prod.mk.injEq] at h
          obtain ⟨ht, hevs⟩ := h
          subst ht; subst hevs
          obtain ⟨Sids, Snd, Sprov, Sevs⟩ := ih h₂
          rcases insertUser_ok_cases h₁ with ⟨hmem, ht₁⟩ | ⟨hmem, ht₁⟩
          · subst ht₁
            refine ⟨fun x => ?_, Snd, fun r hr => ?_, fun e he => ?_⟩
            · rw [Sids x]
              simp only [List.map_cons, List.mem_cons]
              constructor
              · rintro (hx | hx)
                · exact Or.inl hx
                · exact Or.inr (Or.inr hx)
              · rintro (hx | hx | hx)
                · exact Or.inl hx
                · subst hx; exact Or.inl hmem
                · exact Or.inr hx
            · rcases Sprov r hr with hr' | ⟨u', hu', hru'⟩
              · exact Or.inl hr'
              · exact Or.inr ⟨u', List.mem_cons_of_mem _ hu', hru'⟩
            · rcases List.mem_cons.mp he with he' | he'
              · exact ⟨u.id, he'⟩
              · exact Sevs e he'
          · subst ht₁
            refine ⟨fun x => ?_, fun hnd => ?_, fun r hr => ?_, fun e he => ?_⟩
            · rw [Sids x]
              simp only [List.map_append, List.map_cons, List.map_nil,
                List.mem_append, List.mem_singleton, List.mem_cons, mkUserRow]
              tauto
            · apply Snd
              rw [List.map_append]
              apply List.Nodup.append hnd (by simp)
              simp only [List.map_cons, List.map_nil, mkUserRow]
              intro a ha hb
              rcases List.mem_singleton.mp hb with hb'
              subst hb'
              exact hmem ha
            · rcases Sprov r hr with hr' | ⟨u', hu', hru'⟩
              · rcases List.mem_append.mp hr' with hr'' | hr''
                · exact Or.inl hr''
                · exact Or.inr ⟨u, List.mem_cons_self _ _,
                    List.mem_singleton.mp hr''⟩
              · exact Or.inr ⟨u', List.mem_cons_of_mem _ hu', hru'⟩
            · rcases List.mem_cons.mp he with he' | he'
              · exact ⟨u.id, he'⟩
              · exact Sevs e he'

/-- Re-running the users step when every fixture id is already in the
table: every insert is skipped and the table is unchanged. -/
lemma seedUsersRows_skip (hash : String → Nat → String) :
    ∀ (us : List UserRecord) (t : List UserRow),
      (∀ u ∈ us, u.id ∈ t.map UserRow.id) →
      seedUsersRows hash (fun _ => false) us t
        = .ok (t, us.map fun u => Event.userInsert u.id)
  | [], t, _ => by simp [seedUsersRows]
  | u :: us, t, h => by
    have h₁ : insertUser hash t u = .ok t :=
      insertUser_skip (h u (List.mem_cons_self _ _))
    have h₂ := seedUsersRows_skip hash us t
      (fun u' hu' => h u' (List.mem_cons_of_mem _ hu'))
    simp [seedUsersRows, h₁, h₂]

/-! ### Helper lemmas: the customers step -/

lemma any_customerId_iff (t : List CustomerRecord) (s : String) :
    (t.any (fun r => r.id == s) = true) ↔ s ∈ t.map CustomerRecord.id := by
  simp [List.any_eq_true, List.mem_map]

lemma insertCustomer_skip {t : List CustomerRecord} {c : CustomerRecord}
    (h : c.id ∈ t.map CustomerRecord.id) : insertCustomer t c = t := by
  unfold insertCustomer
  rw [if_pos ((any_customerId_iff t c.id).mpr h)]

lemma insertCustomer_cases (t : List CustomerRecord) (c : CustomerRecord) :
    (c.id ∈ t.map CustomerRecord.id ∧ insertCustomer t c = t) ∨
    (c.id ∉ t.map CustomerRecord.id ∧ insertCustomer t c = t ++ [c]) := by
  unfold insertCustomer
  by_cases hid : t.any (fun r => r.id == c.id) = true
  · exact Or.inl ⟨(any_customerId_iff t c.id).mp hid, if_pos hid⟩
  · exact Or.inr ⟨fun hm => hid ((any_customerId_iff t c.id).mpr hm),
      if_neg hid⟩

/-- Combined specification of a successful `seedCustomersRows` pass. -/
lemma seedCustomersRows_ok_spec {fault : CustomerRecord → Bool}
    {cs : List CustomerRecord} {t t' : List CustomerRecord}
    {evs : List Event}
    (h : seedCustomersRows fault cs t = .ok (t', evs)) :
    (∀ x, x ∈ t'.map CustomerRecord.id ↔
      x ∈ t.map CustomerRecord.id ∨ x ∈ cs.map CustomerRecord.id)
    ∧ ((t.map CustomerRecord.id).Nodup → (t'.map CustomerRecord.id).Nodup)
    ∧ (∀ r ∈ t', r ∈ t ∨ r ∈ cs)
    ∧ (∀ e ∈ evs, ∃ i, e = Event.customerInsert i) := by
  induction cs generalizing t t' evs with
  | nil =>
    simp only [seedCustomersRows, Except.ok.injEq, Prod.mk.injEq] at h
    obtain ⟨h1, h2⟩ := h
    subst h1; subst h2
    simp
  | cons c cs ih =>
    simp only [seedCustomersRows] at h
    by_cases hf : fault c
    · rw [if_pos hf] at h; cases h
    · rw [if_neg hf] at h
      cases h₂ : seedCustomersRows fault cs (insertCustomer t c) with
      | error e => simp only [h₂] at h; cases h
      | ok p =>
        obtain ⟨t₂, evs₂⟩ := p
        simp only [h₂, Except.ok.injEq, Prod.mk.injEq] at h
        obtain ⟨ht, hevs⟩ := h
        subst ht; subst hevs
        obtain ⟨Sids, Snd, Sprov, Sevs⟩ := ih h₂
        rcases insertCustomer_cases t c with ⟨hmem, ht₁⟩ | ⟨hmem, ht₁⟩ <;>
          rw [ht₁] at Sids Snd Sprov
        · refine ⟨fun x => ?_, Snd, fun r hr => ?_, fun e he => ?_⟩
          · rw [Sids x]
            simp only [List.map_cons, List.mem_cons]
            constructor
            · rintro (hx | hx)
              · exact Or.inl hx
              · exact Or.inr (Or.inr hx)
            · rintro (hx | hx | hx)
              · exact Or.inl hx
              · subst hx; exact Or.inl hmem
              · exact Or.inr hx
          · rcases Sprov r hr with hr' | hr'
            · exact Or.inl hr'
            · exact Or.inr (List.mem_cons_of_mem _ hr')
          · rcases List.mem_cons.mp he with he' | he'
            · exact ⟨c.id, he'⟩
            · exact Sevs e he'
        · refine ⟨fun x => ?_, fun hnd => ?_, fun r hr => ?_, fun e he => ?_⟩
          · rw [Sids x]
            simp only [List.map_append, List.map_cons, List.map_nil,
              List.mem_append, List.mem_singleton, List.mem_cons]
            tauto
          · apply Snd
            rw [List.map_append]
            apply List.Nodup.append hnd (by simp)
            simp only [List.map_cons, List.map_nil]
            intro a ha hb
            rcases List.mem_singleton.mp hb with hb'
            subst hb'
            exact hmem ha
          · rcases Sprov r hr with hr' | hr'
            · rcases List.mem_append.mp hr' with hr'' | hr''
              · exact Or.inl hr''
              · exact Or.inr (List.mem_cons.mpr
                  (Or.inl (List.mem_singleton.mp hr'')))
            · exact Or.inr (List.mem_cons_of_mem _ hr')
          · rcases List.mem_cons.mp he with he' | he'
            · exact ⟨c.id, he'⟩
            · exact Sevs e he'

/-- Re-running the customers step when every fixture id is already in the
table: every insert is skipped and the table is unchanged. -/
lemma seedCustomersRows_skip {fault : CustomerRecord → Bool}
    (hfa : ∀ c, fault c = false) :
    ∀ (cs : List CustomerRecord) (t : List CustomerRecord),
      (∀ c ∈ cs, c.id ∈ t.map CustomerRecord.id) →
      seedCustomersRows fault cs t
        = .ok (t, cs.map fun c => Event.customerInsert c.id)
  | [], t, _ => by simp [seedCustomersRows]
  | c :: cs, t, h => by
    have h₁ : insertCustomer t c = t :=
      insertCustomer_skip (h c (List.mem_cons_self _ _))
    have h₂ := seedCustomersRows_skip hfa cs t
      (fun c' hc' => h c' (List.mem_cons_of_mem _ hc'))
    simp [seedCustomersRows, hfa c, h₁, h₂]

/-- A fault-free customers pass always succeeds. -/
lemma seedCustomersRows_noFaults_ok {fault : CustomerRecord → Bool}
    (hfa : ∀ c, fault c = false) :
    ∀ (cs : List CustomerRecord) (t : List CustomerRecord),
      ∃ t' evs, seedCustomersRows fault cs t = .ok (t', evs)
  | [], t => ⟨t, [], by simp [seedCustomersRows]⟩
  | c :: cs, t => by
    obtain ⟨t', evs, h⟩ :=
      seedCustomersRows_noFaults_ok hfa cs (insertCustomer t c)
    exact ⟨t', .customerInsert c.id :: evs,
      by simp [seedCustomersRows, hfa c, h]⟩

/-! ### Helper lemmas: the revenue step -/

lemma any_month_iff (t : List RevenueRecord) (s : String) :
    (t.any (fun r => r.month == s) = true) ↔
      s ∈ t.map RevenueRecord.month := by
  simp [List.any_eq_true, List.mem_map]

lemma insertRevenueRow_skip {t : List RevenueRecord} {r : RevenueRecord}
    (h : r.month ∈ t.map RevenueRecord.month) : insertRevenueRow t r = t := by
  unfold insertRevenueRow
  rw [if_pos ((any_month_iff t r.month).mpr h)]

lemma insertRevenueRow_cases (t : List RevenueRecord) (r : RevenueRecord) :
    (r.month ∈ t.map RevenueRecord.month ∧ insertRevenueRow t r = t) ∨
    (r.month ∉ t.map RevenueRecord.month ∧ insertRevenueRow t r = t ++ [r]) := by
  unfold insertRevenueRow
  by_cases hm : t.any (fun x => x.month == r.month) = true
  · exact Or.inl ⟨(any_month_iff t r.month).mp hm, if_pos hm⟩
  · exact Or.inr ⟨fun hmem => hm ((any_month_iff t r.month).mpr hmem),
      if_neg hm⟩

/-- Combined specification of a successful `seedRevenueRows` pass. -/
lemma seedRevenueRows_ok_spec {fault : RevenueRecord → Bool}
    {rs : List RevenueRecord} {t t' : List RevenueRecord}
    {evs : List Event}
    (h : seedRevenueRows fault rs t = .ok (t', evs)) :
    (∀ x, x ∈ t'.map RevenueRecord.month ↔
      x ∈ t.map RevenueRecord.month ∨ x ∈ rs.map RevenueRecord.month)
    ∧ ((t.map RevenueRecord.month).Nodup →
        (t'.map RevenueRecord.month).Nodup)
    ∧ (∀ r ∈ t', r ∈ t ∨ r ∈ rs)
    ∧ (∀ e ∈ evs, ∃ i, e = Event.revenueInsert i) := by
  induction rs generalizing t t' evs with
  | nil =>
    simp only [seedRevenueRows, Except.ok.injEq, Prod.mk.injEq] at h
    obtain ⟨h1, h2⟩ := h
    subst h1; subst h2
    simp
  | cons r rs ih =>
    simp only [seedRevenueRows] at h
    by_cases hf : fault r
    · rw [if_pos hf] at h; cases h
    · rw [if_neg hf] at h
      cases h₂ : seedRevenueRows fault rs (insertRevenueRow t r) with
      | error e => simp only [h₂] at h; cases h
      | ok p =>
        obtain ⟨t₂, evs₂⟩ := p
        simp only [h₂, Except.ok.injEq, Prod.mk.injEq] at h
        obtain ⟨ht, hevs⟩ := h
        subst ht; subst hevs
        obtain ⟨Sids, Snd, Sprov, Sevs⟩ := ih h₂
        rcases insertRevenueRow_cases t r with ⟨hmem, ht₁⟩ | ⟨hmem, ht₁⟩ <;>
          rw [ht₁] at Sids Snd Sprov
        · refine ⟨fun x => ?_, Snd, fun q hq => ?_, fun e he => ?_⟩
          · rw [Sids x]
            simp only [List.map_cons, List.mem_cons]
            constructor
            · rintro (hx | hx)
              · exact Or.inl hx
              · exact Or.inr (Or.inr hx)
            · rintro (hx | hx | hx)
              · exact Or.inl hx
              · subst hx; exact Or.inl hmem
              · exact Or.inr hx
          · rcases Sprov q hq with hq' | hq'
            · exact Or.inl hq'
            · exact Or.inr (List.mem_cons_of_mem _ hq')
          · rcases List.mem_cons.mp he with he' | he'
            · exact ⟨r.month, he'⟩
            · exact Sevs e he'
        · refine ⟨fun x => ?_, fun hnd => ?_, fun q hq => ?_, fun e he => ?_⟩
          · rw [Sids x]
            simp only [List.map_append, List.map_cons, List.map_nil,
              List.mem_append, List.mem_singleton, List.mem_cons]
            tauto
          · apply Snd
            rw [List.map_append]
            apply List.Nodup.append hnd (by simp)
            simp only [List.map_cons, List.map_nil]
            intro a ha hb
            rcases List.mem_singleton.mp hb with hb'
            subst hb'
            exact hmem ha
          · rcases Sprov q hq with hq' | hq'
            · rcases List.mem_append.mp hq' with hq'' | hq''
              · exact Or.inl hq''
              · exact Or.inr (List.mem_cons.mpr
                  (Or.inl (List.mem_singleton.mp hq'')))
            · exact Or.inr (List.mem_cons_of_mem _ hq')
          · rcases List.mem_cons.mp he with he' | he'
            · exact ⟨r.month, he'⟩
            · exact Sevs e he'

/-- Re-running the revenue step when every fixture month is already in the
table: every insert is skipped and the table is unchanged. -/
lemma seedRevenueRows_skip {fault : RevenueRecord → Bool}
    (hfa : ∀ r, fault r = false) :
    ∀ (rs : List RevenueRecord) (t : List RevenueRecord),
      (∀ r ∈ rs, r.month ∈ t.map RevenueRecord.month) →
      seedRevenueRows fault rs t
        = .ok (t, rs.map fun r => Event.revenueInsert r.month)
  | [], t, _ => by simp [seedRevenueRows]
  | r :: rs, t, h => by
    have h₁ : insertRevenueRow t r = t :=
      insertRevenueRow_skip (h r (List.mem_cons_self _ _))
    have h₂ := seedRevenueRows_skip hfa rs t
      (fun r' hr' => h r' (List.mem_cons_of_mem _ hr'))
    simp [seedRevenueRows, hfa r, h₁, h₂]

/-! ### Helper lemmas: the invoices step -/

/-- The stored fields of an invoice row other than the generated id. -/
def invoiceRowFields (r : InvoiceRow) : String × Int × String × String :=
  (r.customer_id, r.amount, r.status, r.date)

/-- The fields an invoice fixture supplies. -/
def invoiceRecFields (i : InvoiceRecord) : String × Int × String × String :=
  (i.customer_id, i.amount, i.status, i.date)

/-- A fault-free invoices pass always succeeds and appends exactly the
generated rows, advancing the id counter by the fixture count. -/
lemma seedInvoicesRows_noFaults {fault : InvoiceRecord → Bool}
    (hfa : ∀ i, fault i = false) :
    ∀ (invs : List InvoiceRecord) (t : List InvoiceRow) (nid : Nat),
      seedInvoicesRows fault invs t nid
        = .ok (t ++ genInvoiceRows invs nid, nid + invs.length,
            invs.map fun i => Event.invoiceInsert i.customer_id)
  | [], t, nid => by simp [seedInvoicesRows, genInvoiceRows]
  | inv :: invs, t, nid => by
    have h₂ := seedInvoicesRows_noFaults hfa invs
      (t ++ [mkInvoiceRow inv nid]) (nid + 1)
    simp only [seedInvoicesRows, hfa inv, Bool.false_eq_true, if_false, h₂,
      genInvoiceRows, List.map_cons, Except.ok.injEq, Prod.mk.injEq]
    refine ⟨?_, ?_, trivial⟩
    · rw [List.append_assoc, List.singleton_append]
    · rw [List.length_cons]
      omega

lemma genInvoiceRows_length :
    ∀ (invs : List InvoiceRecord) (nid : Nat),
      (genInvoiceRows invs nid).length = invs.length
  | [], _ => rfl
  | inv :: invs, nid => by
    simp [genInvoiceRows, genInvoiceRows_length invs]

/-- Generated ids lie in `[nid, nid + length)`. -/
lemma genInvoiceRows_id_bounds :
    ∀ {invs : List InvoiceRecord} {nid : Nat} {r : InvoiceRow},
      r ∈ genInvoiceRows invs nid → nid ≤ r.id ∧ r.id < nid + invs.length
  | [], _, _, h => by cases h
  | inv :: invs, nid, r, h => by
    rcases List.mem_cons.mp h with h' | h'
    · subst h'
      simp [mkInvoiceRow]
    · have := genInvoiceRows_id_bounds h'
      simp only [List.length_cons]
      omega

/-- The generated rows carry exactly the fixture field values, in order. -/
lemma genInvoiceRows_fields :
    ∀ (invs : List InvoiceRecord) (nid : Nat),
      (genInvoiceRows invs nid).map invoiceRowFields
        = invs.map invoiceRecFields
  | [], _ => rfl
  | inv :: invs, nid => by
    simp [genInvoiceRows, genInvoiceRows_fields invs, invoiceRowFields,
      invoiceRecFields, mkInvoiceRow]

lemma genInvoiceRows_customer_mem :
    ∀ {invs : List InvoiceRecord} {nid : Nat} {r : InvoiceRow},
      r ∈ genInvoiceRows invs nid →
      r.customer_id ∈ invs.map InvoiceRecord.customer_id
  | [], _, _, h => by cases h
  | inv :: invs, nid, r, h => by
    rcases List.mem_cons.mp h with h' | h'
    · subst h'
      simp [mkInvoiceRow]
    · exact List.mem_cons_of_mem _ (genInvoiceRows_customer_mem h')

/-! ### Helper lemmas: decomposing and recomposing a run -/

/-- A successful run decomposes into four successful steps in source
order, and its outputs are assembled from theirs. -/
lemma runSeed_ok_elim {hash : String → Nat → String} {fx : Fixtures}
    {fs : FaultSpec} {db db' : DB} {tr : List Event}
    (h : runSeed hash fx fs db = .ok (db', tr)) :
    ∃ ut uev ct cev it nid iev rt rv,
      seedUsersRows hash fs.userFault fx.users (db.usersTable.getD [])
        = .ok (ut, uev)
      ∧ seedCustomersRows fs.customerFault fx.customers
          (db.customersTable.getD []) = .ok (ct, cev)
      ∧ seedInvoicesRows fs.invoiceFault fx.invoices
          (db.invoicesTable.getD []) db.nextId = .ok (it, nid, iev)
      ∧ seedRevenueRows fs.revenueFault fx.revenue (db.revenueTable.getD [])
          = .ok (rt, rv)
      ∧ db' = ⟨some ut, some ct, some it, some rt, nid⟩
      ∧ tr = uev ++ cev ++ iev ++ rv := by
  unfold runSeed seedUsers seedCustomers seedInvoices seedRevenue at h
  cases h₁ : seedUsersRows hash fs.userFault fx.users
      (db.usersTable.getD []) with
  | error e => simp only [h₁] at h; cases h
  | ok p₁ =>
    obtain ⟨ut, uev⟩ := p₁
    cases h₂ : seedCustomersRows fs.customerFault fx.customers
        (db.customersTable.getD []) with
    | error e => simp only [h₁, h₂] at h; cases h
    | ok p₂ =>
      obtain ⟨ct, cev⟩ := p₂
      cases h₃ : seedInvoicesRows fs.invoiceFault fx.invoices
          (db.invoicesTable.getD []) db.nextId with
      | error e => simp only [h₁, h₂, h₃] at h; cases h
      | ok p₃ =>
        obtain ⟨it, nid, iev⟩ := p₃
        cases h₄ : seedRevenueRows fs.revenueFault fx.revenue
            (db.revenueTable.getD []) with
        | error e => simp only [h₁, h₂, h₃, h₄] at h; cases h
        | ok p₄ =>
          obtain ⟨rt, rv⟩ := p₄
          simp only [h₁, h₂, h₃, h₄, Except.ok.injEq, Prod.mk.injEq] at h
          obtain ⟨hdb, htr⟩ := h
          exact ⟨ut, uev, ct, cev, it, nid, iev, rt, rv, rfl, rfl, rfl, rfl,
            hdb.symm, htr.symm⟩

/-- Four successful steps assemble into a successful run. -/
lemma runSeed_ok_intro {hash : String → Nat → String} {fx : Fixtures}
    {fs : FaultSpec} {db : DB} {ut uev ct cev it nid iev rt rv}
    (h₁ : seedUsersRows hash fs.userFault fx.users (db.usersTable.getD [])
      = .ok (ut, uev))
    (h₂ : seedCustomersRows fs.customerFault fx.customers
      (db.customersTable.getD []) = .ok (ct, cev))
    (h₃ : seedInvoicesRows fs.invoiceFault fx.invoices
      (db.invoicesTable.getD []) db.nextId = .ok (it, nid, iev))
    (h₄ : seedRevenueRows fs.revenueFault fx.revenue (db.revenueTable.getD [])
      = .ok (rt, rv)) :
    runSeed hash fx fs db
      = .ok (⟨some ut, some ct, some it, some rt, nid⟩,
          uev ++ cev ++ iev ++ rv) := by
  unfold runSeed seedUsers seedCustomers seedInvoices seedRevenue
  simp only [h₁, h₂, h₃, h₄]

/-- Workhorse for the idempotence claims: a successful fault-free run on
the empty database characterizes the four tables, and a second run
succeeds, leaves `users` / `customers` / `revenue` unchanged, and appends
a second batch of generated invoice rows. -/
lemma seed_twice_spec {hash : String → Nat → String} {fx : Fixtures}
    {db1 : DB} {tr1 : List Event}
    (h1 : runSeed hash fx FaultSpec.noFaults DB.empty = .ok (db1, tr1)) :
    ∃ ut ct rt,
      db1.usersTable = some ut ∧ db1.customersTable = some ct
      ∧ db1.invoicesTable = some (genInvoiceRows fx.invoices 0)
      ∧ db1.revenueTable = some rt ∧ db1.nextId = fx.invoices.length
      ∧ (∀ x, x ∈ ut.map UserRow.id ↔ x ∈ fx.users.map UserRecord.id)
      ∧ (ut.map UserRow.id).Nodup
      ∧ (∀ r ∈ ut, ∃ u ∈ fx.users, r = mkUserRow hash u)
      ∧ (∀ x, x ∈ ct.map CustomerRecord.id ↔
          x ∈ fx.customers.map CustomerRecord.id)
      ∧ (ct.map CustomerRecord.id).Nodup
      ∧ (∀ r ∈ ct, r ∈ fx.customers)
      ∧ (∀ x, x ∈ rt.map RevenueRecord.month ↔
          x ∈ fx.revenue.map RevenueRecord.month)
      ∧ (rt.map RevenueRecord.month).Nodup
      ∧ ∃ tr2, runSeed hash fx FaultSpec.noFaults db1
          = .ok (⟨some ut, some ct,
              some (genInvoiceRows fx.invoices 0
                ++ genInvoiceRows fx.invoices fx.invoices.length),
              some rt, fx.invoices.length + fx.invoices.length⟩, tr2) := by
  obtain ⟨ut, uev, ct, cev, it, nid, iev, rt, rv, h₁, h₂, h₃, h₄, hdb, htr⟩ :=
    runSeed_ok_elim h1
  simp only [DB.empty, Option.getD_none] at h₁ h₂ h₃ h₄
  simp only [FaultSpec.noFaults] at h₁ h₂ h₃ h₄
  rw [seedInvoicesRows_noFaults (fun _ => rfl) fx.invoices [] 0] at h₃
  simp only [List.nil_append, Nat.zero_add, Except.ok.injEq,
    Prod.mk.injEq] at h₃
  obtain ⟨hit, hnid, hiev⟩ := h₃
  subst hit; subst hnid
  obtain ⟨Uids, Und, Uprov, _⟩ := seedUsersRows_ok_spec h₁
  obtain ⟨Cids, Cnd, Cprov, _⟩ := seedCustomersRows_ok_spec h₂
  obtain ⟨Rids, Rnd, Rprov, _⟩ := seedRevenueRows_ok_spec h₄
  have hUids : ∀ x, x ∈ ut.map UserRow.id ↔ x ∈ fx.users.map UserRecord.id :=
    fun x => by rw [Uids x]; simp
  have hCids : ∀ x, x ∈ ct.map CustomerRecord.id ↔
      x ∈ fx.customers.map CustomerRecord.id :=
    fun x => by rw [Cids x]; simp
  have hRids : ∀ x, x ∈ rt.map RevenueRecord.month ↔
      x ∈ fx.revenue.map RevenueRecord.month :=
    fun x => by rw [Rids x]; simp
  have hUprov : ∀ r ∈ ut, ∃ u ∈ fx.users, r = mkUserRow hash u := by
    intro r hr
    rcases Uprov r hr with hr' | hr'
    · cases hr'
    · exact hr'
  have hCprov : ∀ r ∈ ct, r ∈ fx.customers := by
    intro r hr
    rcases Cprov r hr with hr' | hr'
    · cases hr'
    · exact hr'
  subst hdb
  refine ⟨ut, ct, rt, rfl, rfl, rfl, rfl, rfl, hUids, Und (by simp),
    hUprov, hCids, Cnd (by simp), hCprov, hRids, Rnd (by simp), ?_⟩
  have h₁' : seedUsersRows hash (fun _ => false) fx.users ut
      = .ok (ut, fx.users.map fun u => Event.userInsert u.id) := by
    apply seedUsersRows_skip
    intro u hu
    exact (hUids u.id).mpr (List.mem_map_of_mem _ hu)
  have h₂' : seedCustomersRows (fun _ => false) fx.customers
      ct = .ok (ct, fx.customers.map fun c => Event.customerInsert c.id) := by
    apply seedCustomersRows_skip (fun _ => rfl)
    intro c hc
    exact (hCids c.id).mpr (List.mem_map_of_mem _ hc)
  have h₃' : seedInvoicesRows (fun _ => false) fx.invoices
      (genInvoiceRows fx.invoices 0) fx.invoices.length
      = .ok (genInvoiceRows fx.invoices 0
          ++ genInvoiceRows fx.invoices fx.invoices.length,
          fx.invoices.length + fx.invoices.length,
          fx.invoices.map fun i => Event.invoiceInsert i.customer_id) :=
    seedInvoicesRows_noFaults (fun _ => rfl) fx.invoices
      (genInvoiceRows fx.invoices 0) fx.invoices.length
  have h₄' : seedRevenueRows (fun _ => false) fx.revenue rt
      = .ok (rt, fx.revenue.map fun r => Event.revenueInsert r.month) := by
    apply seedRevenueRows_skip (fun _ => rfl)
    intro r hr
    exact (hRids r.month).mpr (List.mem_map_of_mem _ hr)
  exact ⟨_, runSeed_ok_intro h₁' h₂' h₃' h₄'⟩

/-- Shape of the events a successful invoices pass emits. -/
lemma seedInvoicesRows_ok_events {fault : InvoiceRecord → Bool}
    {invs : List InvoiceRecord} {t t' : List InvoiceRow} {nid nid' : Nat}
    {evs : List Event}
    (h : seedInvoicesRows fault invs t nid = .ok (t', nid', evs)) :
    ∀ e ∈ evs, ∃ i, e = Event.invoiceInsert i := by
  induction invs generalizing t nid t' nid' evs with
  | nil =>
    simp only [seedInvoicesRows, Except.ok.injEq, Prod.mk.injEq] at h
    obtain ⟨-, -, h3⟩ := h
    subst h3
    intro e he; cases he
  | cons inv invs ih =>
    simp only [seedInvoicesRows] at h
    by_cases hf : fault inv
    · rw [if_pos hf] at h; cases h
    · rw [if_neg hf] at h
      cases h₂ : seedInvoicesRows fault invs (t ++ [mkInvoiceRow inv nid])
          (nid + 1) with
      | error e => simp only [h₂] at h; cases h
      | ok p =>
        obtain ⟨t₂, nid₂, evs₂⟩ := p
        simp only [h₂, Except.ok.injEq, Prod.mk.injEq] at h
        obtain ⟨-, -, hevs⟩ := h
        subst hevs
        intro e he
        rcases List.mem_cons.mp he with he' | he'
        · exact ⟨inv.customer_id, he'⟩
        · exact ih h₂ e he'

/-- Events of a single seeding step all carry that step's index, so the
step's own trace is trivially ordered. -/
lemma pairwise_stepIndex_of_const {l : List Event} {c : Nat}
    (h : ∀ e ∈ l, e.stepIndex = c) :
    l.Pairwise fun a b => a.stepIndex ≤ b.stepIndex := by
  induction l with
  | nil => exact List.Pairwise.nil
  | cons x xs ih =>
    refine List.Pairwise.cons (fun b hb => ?_)
      (ih fun e he => h e (List.mem_cons_of_mem _ he))
    rw [h x (List.mem_cons_self _ _), h b (List.mem_cons_of_mem _ hb)]

/-- The step indices of the events of a successful run, segment by
segment: users 0, customers 1, invoices 2, revenue 3. -/
lemma runSeed_trace_segments {hash : String → Nat → String} {fx : Fixtures}
    {fs : FaultSpec} {db db' : DB} {tr : List Event}
    (h : runSeed hash fx fs db = .ok (db', tr)) :
    ∃ uev cev iev rv, tr = uev ++ cev ++ iev ++ rv
      ∧ (∀ e ∈ uev, Event.stepIndex e = 0)
      ∧ (∀ e ∈ cev, Event.stepIndex e = 1)
      ∧ (∀ e ∈ iev, Event.stepIndex e = 2)
      ∧ (∀ e ∈ rv, Event.stepIndex e = 3) := by
  obtain ⟨ut, uev, ct, cev, it, nid, iev, rt, rv, h₁, h₂, h₃, h₄, _, htr⟩ :=
    runSeed_ok_elim h
  refine ⟨uev, cev, iev, rv, htr, ?_, ?_, ?_, ?_⟩
  · intro e he
    obtain ⟨i, hi⟩ := (seedUsersRows_ok_spec h₁).2.2.2 e he
    subst hi; rfl
  · intro e he
    obtain ⟨i, hi⟩ := (seedCustomersRows_ok_spec h₂).2.2.2 e he
    subst hi; rfl
  · intro e he
    obtain ⟨i, hi⟩ := seedInvoicesRows_ok_events h₃ e he
    subst hi; rfl
  · intro e he
    obtain ⟨i, hi⟩ := (seedRevenueRows_ok_spec h₄).2.2.2 e he
    subst hi; rfl

/-! ### Concrete inputs for evaluating the model (§8 end-to-end scenario) -/

def userAmy : UserRecord := ⟨"u1", "Amy", "amy@x.com", "secret"⟩

def customerAcme : CustomerRecord := ⟨"c1", "Acme", "a@acme.com", "/img.png"⟩

def invoiceAcme : InvoiceRecord := ⟨"c1", 500, "paid", "2024-01-01"⟩

def revenueJan : RevenueRecord := ⟨"Jan1", 1000⟩

def fxDemo : Fixtures := ⟨[userAmy], [customerAcme], [invoiceAcme], [revenueJan]⟩

/-- Database state after one successful demo run. -/
def db1Demo : DB :=
  ⟨some [mkUserRow hash0 userAmy], some [customerAcme],
    some [mkInvoiceRow invoiceAcme 0], some [revenueJan], 1⟩

def trDemo : List Event :=
  [.userInsert "u1", .customerInsert "c1", .invoiceInsert "c1",
    .revenueInsert "Jan1"]

/-- Faults that make every revenue-row insert fail (the §8 atomicity
scenario: a revenue insert forced to fail, e.g. by a type mismatch). -/
def faultsRevenue : FaultSpec :=
  ⟨fun _ => false, fun _ => false, fun _ => false, fun _ => true⟩

/-- A user whose id is fresh but whose email collides with `userAmy`. -/
def userBobDupEmail : UserRecord := ⟨"u2", "Bob", "amy@x.com", "hunter2"⟩

def fxDupEmail : Fixtures := ⟨[userBobDupEmail], [], [], []⟩

/-- A database that already holds Amy's seeded row. -/
def dbSeededAmy : DB :=
  ⟨some [mkUserRow hash0 userAmy], some [], some [], some [], 0⟩

/-! ### The claims -/

/-- **C1** Atomicity of the run: whenever the `GET` handler does not
answer with the success response (some sub-step of the run — a schema
statement, a row insert, the hashing, or the commit — failed), the
database state visible after the call equals the state before the run
began: every change attempted in this run was rolled back. -/
theorem seed_run_atomic_rollback (hash : String → Nat → String)
    (fx : Fixtures) (fs : FaultSpec) (commitOk rollbackOk : Bool) (db : DB)
    (r : GETResult) (db₂ : DB)
    (hres : GET hash fx fs commitOk rollbackOk db = (r, db₂))
    (hfail : ∀ m, r ≠ GETResult.json200 m) : db₂ = db := by
  unfold GET at hres
  cases hrun : runSeed hash fx fs db with
  | ok p =>
    obtain ⟨db', tr⟩ := p
    rw [hrun] at hres
    cases commitOk
    · cases rollbackOk
      · simp only [Bool.false_eq_true, if_false, Prod.mk.injEq] at hres
        exact hres.2.symm
      · simp only [Bool.false_eq_true, if_false, if_true,
          Prod.mk.injEq] at hres
        exact hres.2.symm
    · simp only [if_true, Prod.mk.injEq] at hres
      exact absurd hres.1.symm (hfail _)
  | error e =>
    rw [hrun] at hres
    cases rollbackOk
    · simp only [Bool.false_eq_true, if_false, Prod.mk.injEq] at hres
      exact hres.2.symm
    · simp only [if_true, Prod.mk.injEq] at hres
      exact hres.2.symm

theorem seed_run_atomic_rollback_witness :
    GET hash0 fxDemo faultsRevenue true true DB.empty
      = (.json500 (.injectedFault "revenue"), DB.empty)
    ∧ (DB.empty : DB) = DB.empty :=
  ⟨by rfl,
    seed_run_atomic_rollback hash0 fxDemo faultsRevenue true true DB.empty
      (.json500 (.injectedFault "revenue")) DB.empty (by rfl)
      (fun m h => by cases h)⟩

/-- **C4** Fixed step order: in every successful run the trace of executed
inserts is sorted by step (`users`, `customers`, `invoices`, `revenue` in
that order); in particular every customer insert precedes every invoice
insert. -/
theorem runSeed_step_order (hash : String → Nat → String) (fx : Fixtures)
    (fs : FaultSpec) (db db' : DB) (tr : List Event)
    (h : runSeed hash fx fs db = .ok (db', tr)) :
    tr.Pairwise (fun a b => a.stepIndex ≤ b.stepIndex)
    ∧ ∀ (i j : Nat) (hi : i < tr.length) (hj : j < tr.length),
        (∃ c, tr.get ⟨i, hi⟩ = Event.customerInsert c) →
        (∃ c, tr.get ⟨j, hj⟩ = Event.invoiceInsert c) →
        i < j := by
  obtain ⟨uev, cev, iev, rv, htr, hu, hc, hi, hr⟩ := runSeed_trace_segments h
  subst htr
  have hpw : (uev ++ cev ++ iev ++ rv).Pairwise
      fun a b => a.stepIndex ≤ b.stepIndex := by
    rw [List.append_assoc, List.append_assoc]
    refine List.pairwise_append.mpr
      ⟨pairwise_stepIndex_of_const hu, ?_, ?_⟩
    · refine List.pairwise_append.mpr
        ⟨pairwise_stepIndex_of_const hc, ?_, ?_⟩
      · refine List.pairwise_append.mpr
          ⟨pairwise_stepIndex_of_const hi, pairwise_stepIndex_of_const hr,
            ?_⟩
        intro a ha b hb
        rw [hi a ha, hr b hb]
        omega
      · intro a ha b hb
        rcases List.mem_append.mp hb with hb' | hb'
        · rw [hc a ha, hi b hb']; omega
        · rw [hc a ha, hr b hb']; omega
    · intro a ha b hb
      rcases List.mem_append.mp hb with hb' | hb'
      · rw [hu a ha, hc b hb']; omega
      · rcases List.mem_append.mp hb' with hb'' | hb''
        · rw [hu a ha, hi b hb'']; omega
        · rw [hu a ha, hr b hb'']; omega
  refine ⟨hpw, fun i j hic hjc hci hcj => ?_⟩
  obtain ⟨c₁, hc₁⟩ := hci
  obtain ⟨c₂, hc₂⟩ := hcj
  by_contra hij
  have hle : j ≤ i := Nat.le_of_not_lt hij
  rcases Nat.lt_or_ge j i with hlt | hge
  · have hR := List.pairwise_iff_get.mp hpw ⟨j, hjc⟩ ⟨i, hic⟩ hlt
    rw [hc₁, hc₂] at hR
    simp [Event.stepIndex] at hR
  · have hij' : i = j := Nat.le_antisymm hge hle
    subst hij'
    rw [hc₁] at hc₂
    cases hc₂

theorem runSeed_step_order_witness :
    trDemo.Pairwise (fun a b => a.stepIndex ≤ b.stepIndex)
    ∧ ∀ (i j : Nat) (hi : i < trDemo.length) (hj : j < trDemo.length),
        (∃ c, trDemo.get ⟨i, hi⟩ = Event.customerInsert c) →
        (∃ c, trDemo.get ⟨j, hj⟩ = Event.invoiceInsert c) →
        i < j :=
  runSeed_step_order hash0 fxDemo FaultSpec.noFaults DB.empty db1Demo
    trDemo (by rfl)

/-- The concrete hash stand-in never returns its input (it prepends a
bcrypt-style prefix, so the length grows). -/
lemma hash0_ne (p : String) : hash0 p 10 ≠ p := by
  intro h
  have hlen := congrArg String.length h
  rw [hash0, String.length_append] at hlen
  have h7 : ("$2b$10$" : String).length = 7 := rfl
  rw [h7] at hlen
  omega

/-- **C2** Idempotence for keyed tables: after a successful fault-free run
on the empty database, `users`, `customers` and `revenue` hold exactly one
row per unique key (user id, customer id, revenue month) of their fixture
lists; a second run succeeds and inserts no additional rows into these
three tables, which again hold exactly one row per unique key. -/
theorem seed_idempotent_keyed (hash : String → Nat → String) (fx : Fixtures)
    (db1 : DB) (tr1 : List Event)
    (h1 : runSeed hash fx FaultSpec.noFaults DB.empty = .ok (db1, tr1)) :
    ∃ ut ct rt db2 tr2,
      db1.usersTable = some ut ∧ db1.customersTable = some ct
      ∧ db1.revenueTable = some rt
      ∧ (∀ k, k ∈ ut.map UserRow.id ↔ k ∈ fx.users.map UserRecord.id)
      ∧ (∀ k ∈ fx.users.map UserRecord.id, (ut.map UserRow.id).count k = 1)
      ∧ (∀ k, k ∈ ct.map CustomerRecord.id ↔
          k ∈ fx.customers.map CustomerRecord.id)
      ∧ (∀ k ∈ fx.customers.map CustomerRecord.id,
          (ct.map CustomerRecord.id).count k = 1)
      ∧ (∀ k, k ∈ rt.map RevenueRecord.month ↔
          k ∈ fx.revenue.map RevenueRecord.month)
      ∧ (∀ k ∈ fx.revenue.map RevenueRecord.month,
          (rt.map RevenueRecord.month).count k = 1)
      ∧ runSeed hash fx FaultSpec.noFaults db1 = .ok (db2, tr2)
      ∧ db2.usersTable = some ut ∧ db2.customersTable = some ct
      ∧ db2.revenueTable = some rt := by
  obtain ⟨ut, ct, rt, hu, hc, hi, hr, hn, hUids, Und, hUprov, hCids, Cnd,
    hCprov, hRids, Rnd, tr2, hrun2⟩ := seed_twice_spec h1
  refine ⟨ut, ct, rt, _, tr2, hu, hc, hr, hUids, ?_, hCids, ?_, hRids, ?_,
    hrun2, rfl, rfl, rfl⟩
  · exact fun k hk => List.count_eq_one_of_mem Und ((hUids k).mpr hk)
  · exact fun k hk => List.count_eq_one_of_mem Cnd ((hCids k).mpr hk)
  · exact fun k hk => List.count_eq_one_of_mem Rnd ((hRids k).mpr hk)

theorem seed_idempotent_keyed_witness :
    ∃ ut ct rt db2 tr2,
      db1Demo.usersTable = some ut ∧ db1Demo.customersTable = some ct
      ∧ db1Demo.revenueTable = some rt
      ∧ (∀ k, k ∈ ut.map UserRow.id ↔ k ∈ fxDemo.users.map UserRecord.id)
      ∧ (∀ k ∈ fxDemo.users.map UserRecord.id,
          (ut.map UserRow.id).count k = 1)
      ∧ (∀ k, k ∈ ct.map CustomerRecord.id ↔
          k ∈ fxDemo.customers.map CustomerRecord.id)
      ∧ (∀ k ∈ fxDemo.customers.map CustomerRecord.id,
          (ct.map CustomerRecord.id).count k = 1)
      ∧ (∀ k, k ∈ rt.map RevenueRecord.month ↔
          k ∈ fxDemo.revenue.map RevenueRecord.month)
      ∧ (∀ k ∈ fxDemo.revenue.map RevenueRecord.month,
          (rt.map RevenueRecord.month).count k = 1)
      ∧ runSeed hash0 fxDemo FaultSpec.noFaults db1Demo = .ok (db2, tr2)
      ∧ db2.usersTable = some ut ∧ db2.customersTable = some ct
      ∧ db2.revenueTable = some rt :=
  seed_idempotent_keyed hash0 fxDemo db1Demo trDemo (by rfl)

/-- **C3** Invoice non-idempotence: after a successful fault-free run on
the empty database the invoices table holds one generated row per fixture
(same field values, ids `0..n-1`); a second run succeeds and appends `n`
further rows with the same field values but fresh generated ids, for
`2*n` rows in total. -/
theorem seed_invoices_duplicate (hash : String → Nat → String)
    (fx : Fixtures) (db1 : DB) (tr1 : List Event)
    (h1 : runSeed hash fx FaultSpec.noFaults DB.empty = .ok (db1, tr1)) :
    ∃ db2 tr2,
      db1.invoicesTable = some (genInvoiceRows fx.invoices 0)
      ∧ (genInvoiceRows fx.invoices 0).length = fx.invoices.length
      ∧ (genInvoiceRows fx.invoices 0).map invoiceRowFields
          = fx.invoices.map invoiceRecFields
      ∧ runSeed hash fx FaultSpec.noFaults db1 = .ok (db2, tr2)
      ∧ db2.invoicesTable = some (genInvoiceRows fx.invoices 0
          ++ genInvoiceRows fx.invoices fx.invoices.length)
      ∧ (genInvoiceRows fx.invoices 0
          ++ genInvoiceRows fx.invoices fx.invoices.length).length
          = 2 * fx.invoices.length
      ∧ (genInvoiceRows fx.invoices fx.invoices.length).map invoiceRowFields
          = fx.invoices.map invoiceRecFields
      ∧ ∀ r ∈ genInvoiceRows fx.invoices fx.invoices.length,
          r.id ∉ (genInvoiceRows fx.invoices 0).map InvoiceRow.id := by
  obtain ⟨ut, ct, rt, hu, hc, hi, hr, hn, hUids, Und, hUprov, hCids, Cnd,
    hCprov, hRids, Rnd, tr2, hrun2⟩ := seed_twice_spec h1
  refine ⟨_, tr2, hi, genInvoiceRows_length _ _, genInvoiceRows_fields _ _,
    hrun2, rfl, ?_, genInvoiceRows_fields _ _, ?_⟩
  · rw [List.length_append, genInvoiceRows_length, genInvoiceRows_length]
    omega
  · intro r hr2 hmem
    have hb2 := genInvoiceRows_id_bounds hr2
    obtain ⟨r', hr', hid⟩ := List.mem_map.mp hmem
    have hb1 := genInvoiceRows_id_bounds hr'
    rw [hid] at hb1
    omega

theorem seed_invoices_duplicate_witness :
    ∃ db2 tr2,
      db1Demo.invoicesTable = some (genInvoiceRows fxDemo.invoices 0)
      ∧ (genInvoiceRows fxDemo.invoices 0).length = fxDemo.invoices.length
      ∧ (genInvoiceRows fxDemo.invoices 0).map invoiceRowFields
          = fxDemo.invoices.map invoiceRecFields
      ∧ runSeed hash0 fxDemo FaultSpec.noFaults db1Demo = .ok (db2, tr2)
      ∧ db2.invoicesTable = some (genInvoiceRows fxDemo.invoices 0
          ++ genInvoiceRows fxDemo.invoices fxDemo.invoices.length)
      ∧ (genInvoiceRows fxDemo.invoices 0
          ++ genInvoiceRows fxDemo.invoices fxDemo.invoices.length).length
          = 2 * fxDemo.invoices.length
      ∧ (genInvoiceRows fxDemo.invoices
          fxDemo.invoices.length).map invoiceRowFields
          = fxDemo.invoices.map invoiceRecFields
      ∧ ∀ r ∈ genInvoiceRows fxDemo.invoices fxDemo.invoices.length,
          r.id ∉ (genInvoiceRows fxDemo.invoices 0).map InvoiceRow.id :=
  seed_invoices_duplicate hash0 fxDemo db1Demo trDemo (by rfl)

/-- **C5** Password storage: treating the bcrypt hash as an opaque
primitive that never returns its input, every row seeded into `users` by
a successful fault-free run on the empty database stores the cost-10 hash
of the fixture's plaintext password, never the plaintext itself, and the
stored value passes the one-way check against that plaintext. -/
theorem seed_passwords_hashed (hash : String → Nat → String)
    (fx : Fixtures) (db1 : DB) (tr1 : List Event) (ut : List UserRow)
    (hne : ∀ p, hash p 10 ≠ p)
    (h1 : runSeed hash fx FaultSpec.noFaults DB.empty = .ok (db1, tr1))
    (hut : db1.usersTable = some ut) :
    ∀ r ∈ ut, ∃ u ∈ fx.users,
      r.id = u.id ∧ r.password = hash u.password 10
      ∧ r.password ≠ u.password
      ∧ verifyPassword hash r.password u.password = true := by
  obtain ⟨ut', ct, rt, hu, hc, hi, hr, hn, hUids, Und, hUprov, _⟩ :=
    seed_twice_spec h1
  rw [hu, Option.some.injEq] at hut
  subst hut
  intro r hrow
  obtain ⟨u, humem, hrw⟩ := hUprov r hrow
  subst hrw
  refine ⟨u, humem, rfl, rfl, hne u.password, ?_⟩
  simp [verifyPassword, mkUserRow]

theorem seed_passwords_hashed_witness :
    ∃ u ∈ fxDemo.users,
      (mkUserRow hash0 userAmy).id = u.id
      ∧ (mkUserRow hash0 userAmy).password = hash0 u.password 10
      ∧ (mkUserRow hash0 userAmy).password ≠ u.password
      ∧ verifyPassword hash0 (mkUserRow hash0 userAmy).password u.password
          = true :=
  seed_passwords_hashed hash0 fxDemo db1Demo trDemo
    [mkUserRow hash0 userAmy] hash0_ne (by rfl) (by rfl)
    (mkUserRow hash0 userAmy) (by simp)

/-- **C6** Response contract: when the run and the commit succeed the
handler returns the JSON success message (HTTP 200); when a step fails
and the rollback succeeds it returns the JSON error with status 500; and
every outcome the handler actually returns (is not a propagated
exception) is one of these two. -/
theorem GET_response_contract (hash : String → Nat → String) (fx : Fixtures)
    (fs : FaultSpec) (commitOk rollbackOk : Bool) (db : DB) :
    (∀ db' tr, runSeed hash fx fs db = .ok (db', tr) → commitOk = true →
      GET hash fx fs commitOk rollbackOk db
        = (.json200 "Database seeded successfully", db'))
    ∧ (∀ e, runSeed hash fx fs db = .error e → rollbackOk = true →
      GET hash fx fs commitOk rollbackOk db = (.json500 e, db))
    ∧ (∀ r db₂, GET hash fx fs commitOk rollbackOk db = (r, db₂) →
      (∀ e, r ≠ GETResult.thrown e) →
      (∃ m, r = GETResult.json200 m) ∨ (∃ e, r = GETResult.json500 e)) := by
  refine ⟨fun db' tr hok hc => ?_, fun e herr hrb => ?_,
    fun r db₂ hres hnothrown => ?_⟩
  · subst hc
    simp [GET, hok]
  · subst hrb
    unfold GET
    rw [herr]
    simp
  · unfold GET at hres
    cases hrun : runSeed hash fx fs db with
    | ok p =>
      obtain ⟨db', tr⟩ := p
      rw [hrun] at hres
      cases commitOk
      · cases rollbackOk
        · simp only [Bool.false_eq_true, if_false, Prod.mk.injEq] at hres
          exact absurd hres.1.symm (hnothrown _)
        · simp only [Bool.false_eq_true, if_false, if_true,
            Prod.mk.injEq] at hres
          exact Or.inr ⟨_, hres.1.symm⟩
      · simp only [if_true, Prod.mk.injEq] at hres
        exact Or.inl ⟨_, hres.1.symm⟩
    | error e =>
      rw [hrun] at hres
      cases rollbackOk
      · simp only [Bool.false_eq_true, if_false, Prod.mk.injEq] at hres
        exact absurd hres.1.symm (hnothrown _)
      · simp only [if_true, Prod.mk.injEq] at hres
        exact Or.inr ⟨_, hres.1.symm⟩

theorem GET_response_contract_witness :
    GET hash0 fxDemo FaultSpec.noFaults true true DB.empty
      = (.json200 "Database seeded successfully", db1Demo) :=
  (GET_response_contract hash0 fxDemo FaultSpec.noFaults true true
    DB.empty).1 db1Demo trDemo (by rfl) rfl

/-- **C7** Per-row conflict skip for users: when a fixture user's id is
already present in the table, the insert raises no error and leaves the
table — in particular the existing row's name, email, and password —
unchanged. -/
theorem insertUser_conflict_skip (hash : String → Nat → String)
    (t : List UserRow) (u : UserRecord)
    (h : u.id ∈ t.map UserRow.id) :
    insertUser hash t u = .ok t :=
  insertUser_skip h

theorem insertUser_conflict_skip_witness :
    insertUser hash0 [mkUserRow hash0 userAmy]
      ⟨"u1", "Amy2", "other@x.com", "changed"⟩
      = .ok [mkUserRow hash0 userAmy] :=
  insertUser_conflict_skip hash0 [mkUserRow hash0 userAmy]
    ⟨"u1", "Amy2", "other@x.com", "changed"⟩ (by simp [mkUserRow, userAmy])

/-- **C8** Referential soundness: if every invoice fixture's customer id
is the id of some customer fixture, then after a successful fault-free
run on the empty database every row of the invoices table references the
id of a row present in the customers table. -/
theorem seed_invoices_referential (hash : String → Nat → String)
    (fx : Fixtures) (db1 : DB) (tr1 : List Event) (it : List InvoiceRow)
    (ct : List CustomerRecord)
    (href : ∀ inv ∈ fx.invoices,
      inv.customer_id ∈ fx.customers.map CustomerRecord.id)
    (h1 : runSeed hash fx FaultSpec.noFaults DB.empty = .ok (db1, tr1))
    (hit : db1.invoicesTable = some it)
    (hct : db1.customersTable = some ct) :
    ∀ r ∈ it, r.customer_id ∈ ct.map CustomerRecord.id := by
  obtain ⟨ut, ct', rt, hu, hc, hi, hr, hn, hUids, Und, hUprov, hCids, _⟩ :=
    seed_twice_spec h1
  rw [hc, Option.some.injEq] at hct
  subst hct
  rw [hi, Option.some.injEq] at hit
  subst hit
  intro r hrmem
  have hcid := genInvoiceRows_customer_mem hrmem
  obtain ⟨inv, hinv, hcid'⟩ := List.mem_map.mp hcid
  rw [← hcid']
  exact (hCids inv.customer_id).mpr (href inv hinv)

theorem seed_invoices_referential_witness :
    (mkInvoiceRow invoiceAcme 0).customer_id
      ∈ [customerAcme].map CustomerRecord.id :=
  seed_invoices_referential hash0 fxDemo db1Demo trDemo
    [mkInvoiceRow invoiceAcme 0] [customerAcme] (by decide) (by rfl)
    (by rfl) (by rfl) (mkInvoiceRow invoiceAcme 0) (by simp)

/-- **C9** The conflict skip applies only to the `id` column: a fixture
user with a fresh id but an email already stored violates the email
uniqueness constraint, so the insert errors (it is not skipped), the run
fails, and the handler rolls back, leaving the database unchanged. -/
theorem seed_email_conflict_fails :
    insertUser hash0 (dbSeededAmy.usersTable.getD []) userBobDupEmail
      = .error (.uniqueViolation "users_email_key")
    ∧ runSeed hash0 fxDupEmail FaultSpec.noFaults dbSeededAmy
      = .error (.uniqueViolation "users_email_key")
    ∧ GET hash0 fxDupEmail FaultSpec.noFaults true true dbSeededAmy
      = (.json500 (.uniqueViolation "users_email_key"), dbSeededAmy) :=
  ⟨by rfl, by rfl, by rfl⟩

/-- **C10** If a seeding step fails and the `ROLLBACK` statement inside
the catch handler also fails, the handler's promise rejects (the
exception propagates) instead of returning the documented JSON error
response with status 500. -/
theorem GET_rollback_failure_thrown (hash : String → Nat → String)
    (fx : Fixtures) (fs : FaultSpec) (commitOk : Bool) (db : DB)
    (e : SeedError) (h : runSeed hash fx fs db = .error e) :
    GET hash fx fs commitOk false db = (.thrown .rollbackFailure, db)
    ∧ ∀ e', (GET hash fx fs commitOk false db).1 ≠ .json500 e' := by
  have hthrown : GET hash fx fs commitOk false db
      = (.thrown .rollbackFailure, db) := by
    unfold GET
    rw [h]
    simp
  refine ⟨hthrown, fun e' hcon => ?_⟩
  rw [hthrown] at hcon
  simp at hcon

theorem GET_rollback_failure_thrown_witness :
    GET hash0 fxDupEmail FaultSpec.noFaults true false dbSeededAmy
      = (.thrown .rollbackFailure, dbSeededAmy)
    ∧ ∀ e', (GET hash0 fxDupEmail FaultSpec.noFaults true false
        dbSeededAmy).1 ≠ .json500 e' :=
  GET_rollback_failure_thrown hash0 fxDupEmail FaultSpec.noFaults true
    dbSeededAmy (.uniqueViolation "users_email_key") (by rfl)
